import Mathlib

/-!
# Verification of the portfolio_optimization repository

Shallow embedding, over exact real arithmetic, of the statistical core of the
`portfolio_optimization` scripts:

* `correlation_matrix/correlation_matrix_analysis.py` — returns, global
  normalization, Pearson correlation matrix, and the per-pair
  eigendecomposition-based whitening ("aggregated distribution of returns");
* `local_normalization/local_normalization_analysis.py` — rolling volatility,
  local (rolling-window) normalization, and the same whitening code;
* `correlation_matrix/correlation_matrix_tools.py` — week-label generation;
* `download_data/download_data_main.py`, `download_data/download_data_tools.py`
  — download request construction and S&P 500 sector selection.

A pandas `DataFrame` of n rows and m instrument columns is modelled as a
function `Fin n → Fin m → ℝ` for the column-statistics operations, as a list
of rows for `pct_change`/`dropna`, and as an index-carrying list of cells
(`Series`) for the rolling-window operations, where a cell value `none`
models IEEE NaN.
-/

namespace PortfolioOpt

open Matrix

/-! ## Column statistics (pandas `.mean()`, `.cov()`, `.corr()`, `.std()`)

pandas uses the sample (ddof = 1) covariance and standard deviation; the
Pearson correlation is the covariance entry divided by the product of the
square roots of the diagonal entries, as in `numpy.corrcoef`. -/

/-- Column mean of a dataframe: pandas `data.mean()` for column `j`. -/
noncomputable def colMean {n m : ℕ} (X : Fin n → Fin m → ℝ) (j : Fin m) : ℝ :=
  (∑ t, X t j) / n

/-- Sample covariance matrix of the columns: pandas `data.cov()`
(denominator `n - 1`, ddof = 1). -/
noncomputable def cov {n m : ℕ} (X : Fin n → Fin m → ℝ) : Matrix (Fin m) (Fin m) ℝ :=
  Matrix.of fun i j =>
    (∑ t, (X t i - colMean X i) * (X t j - colMean X j)) / ((n : ℝ) - 1)

/-- Pearson correlation matrix: pandas `data.corr()`, computed as in
`numpy.corrcoef` by dividing each covariance entry by the square roots of the
corresponding diagonal entries. -/
noncomputable def corr {n m : ℕ} (X : Fin n → Fin m → ℝ) :
    Matrix (Fin m) (Fin m) ℝ :=
  Matrix.of fun i j =>
    cov X i j / (Real.sqrt (cov X i i) * Real.sqrt (cov X j j))

/-- Global normalization: `(data - data.mean()) / data.std()` from
`normalized_returns_data`; `data.std()` for column `j` is the sample standard
deviation, the square root of the diagonal covariance entry. -/
noncomputable def normalizedMatrix {n m : ℕ} (X : Fin n → Fin m → ℝ) :
    Fin n → Fin m → ℝ :=
  fun t j => (X t j - colMean X j) / Real.sqrt (cov X j j)

/-- Population variance of a column (ddof = 0, denominator `n`); not used by
the code, which always takes ddof = 1, but needed to state that the
normalized columns do NOT have unit population standard deviation. -/
noncomputable def popVarCol {n m : ℕ} (X : Fin n → Fin m → ℝ) (j : Fin m) : ℝ :=
  (∑ t, (X t j - colMean X j) ^ 2) / n

/-! ## The whitening transform of `aggregated_dist_returns_pair_data`

```python
cov_two_col = two_col.cov()
eig_val, eig_vec = np.linalg.eig(cov_two_col)
rot, scal = eig_vec, np.diag(np.sqrt(eig_val))
trans = rot.dot(scal).T
trans_two_col = two_col.dot(np.linalg.inv(trans))
```

The LAPACK eigendecomposition is modelled by parameters: `V` for `eig_vec`
and `s` for `np.sqrt(eig_val)`; the theorems take as hypotheses exactly what
the eigendecomposition of the symmetric matrix `cov X` guarantees
(`V` orthogonal, `cov X = V·diag(Λ)·Vᵀ`, `s i · s i = Λ i`). -/

/-- The transformation matrix `trans = rot.dot(scal).T`, with
`scal = np.diag(np.sqrt(eig_val))` abstracted as `Matrix.diagonal s`. -/
noncomputable def trans (V : Matrix (Fin 2) (Fin 2) ℝ) (s : Fin 2 → ℝ) :
    Matrix (Fin 2) (Fin 2) ℝ :=
  (V * Matrix.diagonal s)ᵀ

/-- The projected pair `trans_two_col = two_col.dot(np.linalg.inv(trans))`:
row `t`, column `j` is the dot product of data row `t` with column `j` of
`trans⁻¹`. -/
noncomputable def transformed {n : ℕ} (X : Fin n → Fin 2 → ℝ)
    (V : Matrix (Fin 2) (Fin 2) ℝ) (s : Fin 2 → ℝ) : Fin n → Fin 2 → ℝ :=
  fun t j => ∑ k, X t k * (trans V s)⁻¹ k j

/-! ### Covariance of a linearly transformed dataframe -/

lemma colMean_linmap {n m p : ℕ} (X : Fin n → Fin m → ℝ)
    (M : Matrix (Fin m) (Fin p) ℝ) (j : Fin p) :
    colMean (fun t j => ∑ k, X t k * M k j) j = ∑ k, colMean X k * M k j := by
  unfold colMean
  rw [Finset.sum_comm]
  rw [Finset.sum_div]
  congr 1
  ext k
  rw [← Finset.sum_mul, div_mul_eq_mul_div]

lemma cov_apply {n m : ℕ} (X : Fin n → Fin m → ℝ) (i j : Fin m) :
    cov X i j
      = (∑ t, (X t i - colMean X i) * (X t j - colMean X j)) / ((n : ℝ) - 1) :=
  rfl

lemma cov_linmap {n m p : ℕ} (X : Fin n → Fin m → ℝ)
    (M : Matrix (Fin m) (Fin p) ℝ) :
    cov (fun t j => ∑ k, X t k * M k j) = Mᵀ * cov X * M := by
  have hdev : ∀ (t : Fin n) (j' : Fin p),
      (∑ k, X t k * M k j') - colMean (fun t j => ∑ k, X t k * M k j) j'
        = ∑ k, (X t k - colMean X k) * M k j' := by
    intro t j'
    rw [colMean_linmap, ← Finset.sum_sub_distrib]
    exact Finset.sum_congr rfl fun k _ => by ring
  ext i j
  rw [cov_apply]
  simp only [hdev]
  have key : (∑ t, (∑ k, (X t k - colMean X k) * M k i) *
        (∑ l, (X t l - colMean X l) * M l j))
      = ∑ k, ∑ l, (M k i * M l j) *
        (∑ t, (X t k - colMean X k) * (X t l - colMean X l)) := by
    simp only [Finset.sum_mul_sum]
    rw [Finset.sum_comm]
    refine Finset.sum_congr rfl fun k _ => ?_
    rw [Finset.sum_comm]
    refine Finset.sum_congr rfl fun l _ => ?_
    rw [Finset.mul_sum]
    exact Finset.sum_congr rfl fun t _ => by ring
  have rhs : (Mᵀ * cov X * M) i j = ∑ k, ∑ l, M k i * cov X k l * M l j := by
    rw [Matrix.mul_apply]
    simp only [Matrix.mul_apply, Matrix.transpose_apply, Finset.sum_mul]
    exact Finset.sum_comm
  rw [key, Finset.sum_div, rhs]
  refine Finset.sum_congr rfl fun k _ => ?_
  rw [Finset.sum_div]
  refine Finset.sum_congr rfl fun l _ => ?_
  rw [cov_apply]
  ring

/-! ### C1: the whitening transform yields identity covariance -/

lemma transpose_orthogonal_right {V : Matrix (Fin 2) (Fin 2) ℝ}
    (hV : Vᵀ * V = 1) : V * Vᵀ = 1 :=
  Matrix.mul_eq_one_comm.mp hV

lemma trans_inv_eq (V : Matrix (Fin 2) (Fin 2) ℝ) (s : Fin 2 → ℝ)
    (hV : Vᵀ * V = 1) (hs0 : ∀ i, s i ≠ 0) :
    (trans V s)⁻¹ = V * Matrix.diagonal (fun i => (s i)⁻¹) := by
  refine Matrix.inv_eq_right_inv ?_
  rw [trans, Matrix.transpose_mul, Matrix.diagonal_transpose]
  rw [Matrix.mul_assoc (Matrix.diagonal s) Vᵀ _,
    ← Matrix.mul_assoc Vᵀ V _, hV, Matrix.one_mul,
    Matrix.diagonal_mul_diagonal]
  rw [show (fun i => s i * (s i)⁻¹) = fun _ => (1 : ℝ) from
    funext fun i => mul_inv_cancel₀ (hs0 i)]
  exact Matrix.diagonal_one

/-- C1: for every pair of return series whose 2×2 covariance is positive
definite — witnessed by the eigendecomposition the code computes: orthogonal
eigenvectors `V`, eigenvalues `lam` with `cov X = V·diag(lam)·Vᵀ`, and
square roots `s` of the eigenvalues, all nonzero — the whitening transform
`trans = (V · diag s)ᵀ` of `aggregated_dist_returns_pair_data` (and of the
identical code in `ln_aggregated_dist_returns_pair_data`), applied to the
pair as `two_col.dot(inv(trans))`, yields a transformed pair whose sample
covariance matrix is exactly the 2×2 identity, over exact real
arithmetic. -/
theorem whitening_transformed_cov_eq_one {n : ℕ} (X : Fin n → Fin 2 → ℝ)
    (V : Matrix (Fin 2) (Fin 2) ℝ) (lam s : Fin 2 → ℝ)
    (hV : Vᵀ * V = 1)
    (hcov : cov X = V * Matrix.diagonal lam * Vᵀ)
    (hs : ∀ i, s i * s i = lam i)
    (hs0 : ∀ i, s i ≠ 0) :
    cov (transformed X V s) = 1 := by
  have hinv := trans_inv_eq V s hV hs0
  show cov (fun t j => ∑ k, X t k * (trans V s)⁻¹ k j) = 1
  rw [hinv, cov_linmap, hcov]
  rw [Matrix.transpose_mul, Matrix.diagonal_transpose]
  simp only [Matrix.mul_assoc]
  have e1 : Vᵀ * (V * Matrix.diagonal (fun i => (s i)⁻¹))
      = Matrix.diagonal (fun i => (s i)⁻¹) := by
    rw [← Matrix.mul_assoc, hV, Matrix.one_mul]
  rw [e1]
  have e2 : Vᵀ * (V * (Matrix.diagonal lam * Matrix.diagonal fun i => (s i)⁻¹))
      = Matrix.diagonal lam * Matrix.diagonal fun i => (s i)⁻¹ := by
    rw [← Matrix.mul_assoc, hV, Matrix.one_mul]
  rw [e2, Matrix.diagonal_mul_diagonal, Matrix.diagonal_mul_diagonal]
  rw [show (fun i => (s i)⁻¹ * (lam i * (s i)⁻¹)) = fun _ => (1 : ℝ) from
    funext fun i => by
      have h0 := hs0 i
      rw [← hs i]
      field_simp]
  exact Matrix.diagonal_one

/-- A concrete pair of return series (3 observations) whose sample covariance
matrix is `diagonal ![1, 3]`: columns `(0,1,2)` and `(1,-2,1)`. -/
def X3 : Fin 3 → Fin 2 → ℝ := !![0, 1; 1, -2; 2, 1]

lemma X3_cov : cov X3 = 1 * Matrix.diagonal ![1, 3] *
    (1 : Matrix (Fin 2) (Fin 2) ℝ)ᵀ := by
  rw [Matrix.one_mul, Matrix.transpose_one, Matrix.mul_one]
  ext i j
  fin_cases i <;> fin_cases j <;>
    simp [cov, colMean, X3, Fin.sum_univ_three, Matrix.diagonal] <;> norm_num

/-- Witness for C1: the theorem applied to the concrete pair `X3` with the
eigendecomposition `V = 1`, `lam = (1,3)`, `s = (1,√3)`. -/
theorem whitening_transformed_cov_eq_one_witness :
    ((1 : Matrix (Fin 2) (Fin 2) ℝ)ᵀ * 1 = 1 ∧
     cov X3 = 1 * Matrix.diagonal ![1, 3] * (1 : Matrix (Fin 2) (Fin 2) ℝ)ᵀ ∧
     (∀ i, (![1, Real.sqrt 3] : Fin 2 → ℝ) i * ![1, Real.sqrt 3] i
        = (![1, 3] : Fin 2 → ℝ) i) ∧
     (∀ i, (![1, Real.sqrt 3] : Fin 2 → ℝ) i ≠ 0)) ∧
    cov (transformed X3 1 ![1, Real.sqrt 3]) = 1 := by
  have h1 : (1 : Matrix (Fin 2) (Fin 2) ℝ)ᵀ * 1 = 1 := by
    rw [Matrix.transpose_one, Matrix.mul_one]
  have h3 : ∀ i, (![1, Real.sqrt 3] : Fin 2 → ℝ) i * ![1, Real.sqrt 3] i
      = (![1, 3] : Fin 2 → ℝ) i := by
    intro i
    fin_cases i
    · norm_num
    · simp
  have h4 : ∀ i, (![1, Real.sqrt 3] : Fin 2 → ℝ) i ≠ 0 := by
    intro i
    fin_cases i
    · norm_num
    · simp
  exact ⟨⟨h1, X3_cov, h3, h4⟩,
    whitening_transformed_cov_eq_one X3 1 ![1, 3] ![1, Real.sqrt 3]
      h1 X3_cov h3 h4⟩

/-! ### C5: properties of the Pearson correlation matrix -/

lemma cov_symm {n m : ℕ} (X : Fin n → Fin m → ℝ) (i j : Fin m) :
    cov X i j = cov X j i := by
  rw [cov_apply, cov_apply]
  congr 1
  exact Finset.sum_congr rfl fun t _ => by ring

lemma cov_diag_sq {n m : ℕ} (X : Fin n → Fin m → ℝ) (i : Fin m) :
    cov X i i = (∑ t, (X t i - colMean X i) ^ 2) / ((n : ℝ) - 1) := by
  rw [cov_apply]
  congr 1
  exact Finset.sum_congr rfl fun t _ => (pow_two _).symm

lemma denom_pos {n : ℕ} (hn : 2 ≤ n) : (0 : ℝ) < (n : ℝ) - 1 := by
  have : (2 : ℝ) ≤ (n : ℝ) := by exact_mod_cast hn
  linarith

lemma cov_diag_nonneg {n m : ℕ} (X : Fin n → Fin m → ℝ) (hn : 2 ≤ n)
    (i : Fin m) : 0 ≤ cov X i i := by
  rw [cov_diag_sq]
  exact div_nonneg (Finset.sum_nonneg fun t _ => sq_nonneg _)
    (le_of_lt (denom_pos hn))

lemma cov_diag_pos {n m : ℕ} (X : Fin n → Fin m → ℝ) (hn : 2 ≤ n) (i : Fin m)
    (hi : ∃ t t', X t i ≠ X t' i) : 0 < cov X i i := by
  obtain ⟨t, t', hne⟩ := hi
  have hu : ∃ u, X u i ≠ colMean X i := by
    by_contra h
    push_neg at h
    exact hne ((h t).trans (h t').symm)
  obtain ⟨u, hu⟩ := hu
  rw [cov_diag_sq]
  refine div_pos (Finset.sum_pos' (fun t _ => sq_nonneg _)
    ⟨u, Finset.mem_univ u, ?_⟩) (denom_pos hn)
  rw [pow_two]
  exact mul_self_pos.mpr (sub_ne_zero.mpr hu)

lemma cov_sq_le_diag_mul_diag {n m : ℕ} (X : Fin n → Fin m → ℝ) (hn : 2 ≤ n)
    (i j : Fin m) : cov X i j ^ 2 ≤ cov X i i * cov X j j := by
  rw [cov_apply, cov_diag_sq, cov_diag_sq, div_pow, div_mul_div_comm]
  have hd : (0 : ℝ) < ((n : ℝ) - 1) ^ 2 := pow_pos (denom_pos hn) 2
  rw [show ((n : ℝ) - 1) * ((n : ℝ) - 1) = ((n : ℝ) - 1) ^ 2 from
    (pow_two _).symm]
  exact (div_le_div_iff_of_pos_right hd).mpr
    (Finset.sum_mul_sq_le_sq_mul_sq Finset.univ _ _)

lemma abs_cov_le {n m : ℕ} (X : Fin n → Fin m → ℝ) (hn : 2 ≤ n) (i j : Fin m) :
    |cov X i j| ≤ Real.sqrt (cov X i i) * Real.sqrt (cov X j j) := by
  rw [← Real.sqrt_sq_eq_abs, ← Real.sqrt_mul (cov_diag_nonneg X hn i)]
  exact Real.sqrt_le_sqrt (cov_sq_le_diag_mul_diag X hn i j)

/-- C5 (amended): for every input dataframe with at least two rows and at
least two columns, all of whose columns are non-constant, the correlation
matrix produced by `correlation_matrix_data` (and `ln_correlation_matrix_data`,
both `data.corr()`) is symmetric, has every diagonal entry equal to `1`, and
has every entry in `[-1, 1]`. -/
theorem corr_symm_unit_diag_bounded {n m : ℕ} (X : Fin n → Fin m → ℝ)
    (hn : 2 ≤ n) (_hm : 2 ≤ m)
    (hcols : ∀ j, ∃ t t', X t j ≠ X t' j) :
    (∀ i j, corr X i j = corr X j i) ∧ (∀ i, corr X i i = 1) ∧
    (∀ i j, -1 ≤ corr X i j ∧ corr X i j ≤ 1) := by
  refine ⟨fun i j => ?_, fun i => ?_, fun i j => ?_⟩
  · simp only [corr, Matrix.of_apply]
    rw [cov_symm X i j, mul_comm]
  · simp only [corr, Matrix.of_apply]
    rw [Real.mul_self_sqrt (cov_diag_nonneg X hn i)]
    exact div_self (ne_of_gt (cov_diag_pos X hn i (hcols i)))
  · simp only [corr, Matrix.of_apply]
    have hD : 0 < Real.sqrt (cov X i i) * Real.sqrt (cov X j j) :=
      mul_pos (Real.sqrt_pos.mpr (cov_diag_pos X hn i (hcols i)))
        (Real.sqrt_pos.mpr (cov_diag_pos X hn j (hcols j)))
    have habs := abs_le.mp (abs_cov_le X hn i j)
    constructor
    · rw [neg_le, ← neg_div]
      exact (div_le_one hD).mpr (by linarith [habs.1])
    · exact (div_le_one hD).mpr habs.2

/-- Witness for C5: the amended theorem applied to the two-column dataframe
with rows `(0,1)` and `(1,0)`. -/
theorem corr_symm_unit_diag_bounded_witness :
    (2 ≤ 2 ∧ (∀ j : Fin 2, ∃ t t' : Fin 2,
        (!![0, 1; 1, 0] : Fin 2 → Fin 2 → ℝ) t j ≠ !![0, 1; 1, 0] t' j)) ∧
    ((∀ i j, corr (!![0, 1; 1, 0] : Fin 2 → Fin 2 → ℝ) i j = corr !![0, 1; 1, 0] j i) ∧
     (∀ i, corr (!![0, 1; 1, 0] : Fin 2 → Fin 2 → ℝ) i i = 1) ∧
     (∀ i j, -1 ≤ corr (!![0, 1; 1, 0] : Fin 2 → Fin 2 → ℝ) i j ∧
        corr (!![0, 1; 1, 0] : Fin 2 → Fin 2 → ℝ) i j ≤ 1)) := by
  have hcols : ∀ j : Fin 2, ∃ t t' : Fin 2,
      (!![0, 1; 1, 0] : Fin 2 → Fin 2 → ℝ) t j ≠ !![0, 1; 1, 0] t' j := by
    intro j
    refine ⟨0, 1, ?_⟩
    fin_cases j <;> norm_num
  exact ⟨⟨le_refl 2, hcols⟩,
    corr_symm_unit_diag_bounded !![0, 1; 1, 0] (le_refl 2) (le_refl 2) hcols⟩

/-- Counterexample for C5 as stated: the dataframe `!![0,1,5; 1,0,5]` has two
non-constant columns (columns 0 and 1), satisfying the claim's premise, yet
the diagonal correlation entry of the constant third column is `0/0` — NaN in
IEEE arithmetic, `0` in the exact embedding — and in particular not `1`. -/
theorem corr_constant_column_counterexample :
    (∃ t t' : Fin 2, (!![0, 1, 5; 1, 0, 5] : Fin 2 → Fin 3 → ℝ) t 0
        ≠ !![0, 1, 5; 1, 0, 5] t' 0) ∧
    (∃ t t' : Fin 2, (!![0, 1, 5; 1, 0, 5] : Fin 2 → Fin 3 → ℝ) t 1
        ≠ !![0, 1, 5; 1, 0, 5] t' 1) ∧
    corr (!![0, 1, 5; 1, 0, 5] : Fin 2 → Fin 3 → ℝ) 2 2 ≠ 1 := by
  refine ⟨⟨0, 1, by norm_num⟩, ⟨0, 1, by norm_num⟩, ?_⟩
  have h0 : cov (!![0, 1, 5; 1, 0, 5] : Fin 2 → Fin 3 → ℝ) 2 2 = 0 := by
    simp [cov, colMean, Fin.sum_univ_two]
  simp [corr, Matrix.of_apply, h0, Real.sqrt_zero]

/-! ### C9: ddof = 1 normalization — unit sample std, sub-unit population std -/

lemma colMean_normalized {n m : ℕ} (X : Fin n → Fin m → ℝ) (j : Fin m)
    (hn : 2 ≤ n) : colMean (normalizedMatrix X) j = 0 := by
  have hn0 : (n : ℝ) ≠ 0 := Nat.cast_ne_zero.mpr (by omega)
  show (∑ t, (X t j - colMean X j) / Real.sqrt (cov X j j)) / n = 0
  rw [← Finset.sum_div]
  have hsum : (∑ t, (X t j - colMean X j)) = 0 := by
    rw [Finset.sum_sub_distrib, Finset.sum_const, Finset.card_univ,
      Fintype.card_fin, nsmul_eq_mul]
    unfold colMean
    field_simp
  rw [hsum, zero_div, zero_div]

lemma sum_sq_dev_eq {n m : ℕ} (X : Fin n → Fin m → ℝ) (j : Fin m)
    (hn : 2 ≤ n) :
    (∑ t, (X t j - colMean X j) ^ 2) = cov X j j * ((n : ℝ) - 1) := by
  rw [cov_diag_sq, div_mul_cancel₀]
  exact ne_of_gt (denom_pos hn)

lemma cov_normalized_diag {n m : ℕ} (X : Fin n → Fin m → ℝ) (j : Fin m)
    (hn : 2 ≤ n) (hj : ∃ t t', X t j ≠ X t' j) :
    cov (normalizedMatrix X) j j = 1 := by
  have hv : 0 < cov X j j := cov_diag_pos X hn j hj
  rw [cov_diag_sq, colMean_normalized X j hn]
  have : ∀ t, (normalizedMatrix X t j - 0) ^ 2
      = (X t j - colMean X j) ^ 2 / Real.sqrt (cov X j j) ^ 2 := by
    intro t
    rw [sub_zero]
    show ((X t j - colMean X j) / Real.sqrt (cov X j j)) ^ 2 = _
    rw [div_pow]
  simp only [this]
  rw [← Finset.sum_div, sum_sq_dev_eq X j hn, Real.sq_sqrt hv.le]
  rw [mul_comm, mul_div_assoc, div_self hv.ne', mul_one,
    div_self (ne_of_gt (denom_pos hn))]

lemma popVar_normalized {n m : ℕ} (X : Fin n → Fin m → ℝ) (j : Fin m)
    (hn : 2 ≤ n) (hj : ∃ t t', X t j ≠ X t' j) :
    popVarCol (normalizedMatrix X) j = ((n : ℝ) - 1) / n := by
  have hv : 0 < cov X j j := cov_diag_pos X hn j hj
  unfold popVarCol
  rw [colMean_normalized X j hn]
  have : ∀ t, (normalizedMatrix X t j - 0) ^ 2
      = (X t j - colMean X j) ^ 2 / Real.sqrt (cov X j j) ^ 2 := by
    intro t
    rw [sub_zero]
    show ((X t j - colMean X j) / Real.sqrt (cov X j j)) ^ 2 = _
    rw [div_pow]
  simp only [this]
  rw [← Finset.sum_div, sum_sq_dev_eq X j hn, Real.sq_sqrt hv.le]
  rw [mul_comm, mul_div_assoc, div_self hv.ne', mul_one]

/-- C9: every standard deviation the code uses is the sample standard
deviation (denominator `n-1`, pandas default ddof = 1) — `cov`, the square
root of whose diagonal is `data.std()`, and the rolling `stdCell` below are
both defined with denominator `n-1`, translated from the source.
Consequently, for every non-constant column of a dataframe with at least two
rows, the column normalized by `normalized_returns_data`
(`(data - data.mean()) / data.std()`) has sample standard deviation exactly
`1`, while its population standard deviation (ddof = 0) is strictly less
than `1`. -/
theorem normalized_column_sample_std_one {n m : ℕ} (X : Fin n → Fin m → ℝ)
    (j : Fin m) (hn : 2 ≤ n) (hj : ∃ t t', X t j ≠ X t' j) :
    Real.sqrt (cov (normalizedMatrix X) j j) = 1 ∧
    Real.sqrt (popVarCol (normalizedMatrix X) j) < 1 := by
  constructor
  · rw [cov_normalized_diag X j hn hj, Real.sqrt_one]
  · rw [popVar_normalized X j hn hj]
    rw [Real.sqrt_lt' one_pos, one_pow]
    have h2 : (2 : ℝ) ≤ (n : ℝ) := by exact_mod_cast hn
    rw [div_lt_one (by linarith)]
    linarith

/-- Witness for C9: the theorem applied to the single-column dataframe with
rows `0` and `1`. -/
theorem normalized_column_sample_std_one_witness :
    (2 ≤ 2 ∧ (∃ t t' : Fin 2,
        (!![0; 1] : Fin 2 → Fin 1 → ℝ) t 0 ≠ !![0; 1] t' 0)) ∧
    (Real.sqrt (cov (normalizedMatrix (!![0; 1] : Fin 2 → Fin 1 → ℝ)) 0 0) = 1 ∧
     Real.sqrt (popVarCol (normalizedMatrix (!![0; 1] : Fin 2 → Fin 1 → ℝ)) 0) < 1) := by
  have hj : ∃ t t' : Fin 2, (!![0; 1] : Fin 2 → Fin 1 → ℝ) t 0 ≠ !![0; 1] t' 0 :=
    ⟨0, 1, by norm_num⟩
  exact ⟨⟨le_refl 2, hj⟩,
    normalized_column_sample_std_one !![0; 1] 0 (le_refl 2) hj⟩

/-! ## Exceptions and the control flow of the analysis operations

Each analysis operation loads a pickle file, transforms it, and saves the
result; the `try`/`except FileNotFoundError` block around the whole body
prints a message and returns normally when the input file is missing.  An
operation is modelled as a function from `Option` input (`none` = the input
pickle file is missing) to an outcome: `ok (some out)` means the operation
returned normally after writing `out`, `ok none` means it returned normally
without writing anything, and `raises e` means the exception `e` propagated
to the caller. -/

inductive PyExn : Type
  | fileNotFoundError : PyExn
  | linAlgError : PyExn
  | attributeError : PyExn
  | syntaxError : PyExn
deriving DecidableEq

inductive PyOutcome (α : Type) : Type
  | ok : α → PyOutcome α
  | raises : PyExn → PyOutcome α

open scoped Classical

/-- The body of `aggregated_dist_returns_pair_data` after a successful load:
covariance, eigendecomposition (parametrized by `V` and `s`, see `trans`),
projection through `np.linalg.inv(trans)`, and concatenation of the two
whitened columns (`.append(..., ignore_index=True)`).  `np.linalg.inv`
raises `LinAlgError` exactly when `trans` is singular. -/
noncomputable def pairCore {n : ℕ} (X : Fin n → Fin 2 → ℝ)
    (V : Matrix (Fin 2) (Fin 2) ℝ) (s : Fin 2 → ℝ) : PyOutcome (List ℝ) :=
  if IsUnit (trans V s).det then
    .ok (((List.finRange n).map fun t => transformed X V s t 0) ++
         ((List.finRange n).map fun t => transformed X V s t 1))
  else .raises .linAlgError

/-- `aggregated_dist_returns_pair_data`: the only exception handler in the
function is `except FileNotFoundError` (print, return `None`). -/
noncomputable def aggregated_dist_returns_pair_data {n : ℕ}
    (V : Matrix (Fin 2) (Fin 2) ℝ) (s : Fin 2 → ℝ)
    (file? : Option (Fin n → Fin 2 → ℝ)) : PyOutcome (Option (List ℝ)) :=
  match file? with
  | none => .ok none
  | some X =>
    match pairCore X V s with
    | .ok l => .ok (some l)
    | .raises e => .raises e

/-! ### C2: a singular covariance is NOT caught -/

/-- A pair of return series with singular covariance: the second column is
constant, so `cov pairX = diagonal ![1, 0]`. -/
def pairX : Fin 3 → Fin 2 → ℝ := !![0, 5; 1, 5; 2, 5]

lemma pairX_cov : cov pairX = 1 * Matrix.diagonal ![1, 0] *
    (1 : Matrix (Fin 2) (Fin 2) ℝ)ᵀ := by
  rw [Matrix.one_mul, Matrix.transpose_one, Matrix.mul_one]
  ext i j
  fin_cases i <;> fin_cases j <;>
    simp [cov, colMean, pairX, Fin.sum_univ_three, Matrix.diagonal] <;> norm_num

lemma pairX_cov_det : (cov pairX).det = 0 := by
  rw [pairX_cov, Matrix.one_mul, Matrix.transpose_one, Matrix.mul_one,
    Matrix.det_diagonal, Fin.prod_univ_two]
  norm_num

lemma pairX_trans_det : (trans 1 (![1, 0] : Fin 2 → ℝ)).det = 0 := by
  rw [trans, Matrix.det_transpose, Matrix.det_mul, Matrix.det_diagonal,
    Fin.prod_univ_two]
  norm_num

/-- Counterexample for C2 as stated: `pairX` has singular covariance
(`det (cov pairX) = 0`, second column constant), the eigendecomposition the
code computes is `V = 1`, `Λ = (1,0)`, `√Λ = (1,0)`, and on this input
`aggregated_dist_returns_pair_data` does NOT skip and return: the
`LinAlgError` raised by `np.linalg.inv` propagates (only `FileNotFoundError`
is caught). -/
theorem aggregated_pair_singular_raises_counterexample :
    (cov pairX).det = 0 ∧
    ((1 : Matrix (Fin 2) (Fin 2) ℝ)ᵀ * 1 = 1) ∧
    cov pairX = 1 * Matrix.diagonal ![1, 0] * (1 : Matrix (Fin 2) (Fin 2) ℝ)ᵀ ∧
    (∀ i, (![1, 0] : Fin 2 → ℝ) i * ![1, 0] i = (![1, 0] : Fin 2 → ℝ) i) ∧
    aggregated_dist_returns_pair_data 1 ![1, 0] (some pairX)
      = .raises .linAlgError := by
  refine ⟨pairX_cov_det, by rw [Matrix.transpose_one, Matrix.mul_one],
    pairX_cov, fun i => by fin_cases i <;> norm_num, ?_⟩
  simp [aggregated_dist_returns_pair_data, pairCore, pairX_trans_det]

/-- C2 (amended): `aggregated_dist_returns_pair_data` catches only
`FileNotFoundError` (missing input file → print, return `None` normally);
whenever the 2×2 covariance of the selected pair is singular, the transform
built from its eigendecomposition is singular, so `np.linalg.inv` raises
`LinAlgError`, which is not caught and propagates to the caller. -/
theorem aggregated_pair_singular_covariance_raises {n : ℕ}
    (X : Fin n → Fin 2 → ℝ) (V : Matrix (Fin 2) (Fin 2) ℝ) (lam s : Fin 2 → ℝ)
    (hV : Vᵀ * V = 1)
    (hcov : cov X = V * Matrix.diagonal lam * Vᵀ)
    (hs : ∀ i, s i * s i = lam i)
    (hsing : (cov X).det = 0) :
    aggregated_dist_returns_pair_data V s (some X) = .raises .linAlgError ∧
    aggregated_dist_returns_pair_data V s (none : Option (Fin n → Fin 2 → ℝ))
      = .ok none := by
  have hdetV : V.det * V.det = 1 := by
    have h := congrArg Matrix.det hV
    rwa [Matrix.det_mul, Matrix.det_transpose, Matrix.det_one] at h
  have hlam : lam 0 * lam 1 = 0 := by
    have hc := congrArg Matrix.det hcov
    rw [hsing, Matrix.det_mul, Matrix.det_mul, Matrix.det_diagonal,
      Matrix.det_transpose, Fin.prod_univ_two] at hc
    calc lam 0 * lam 1 = (V.det * V.det) * (lam 0 * lam 1) := by
          rw [hdetV, one_mul]
      _ = V.det * (lam 0 * lam 1) * V.det := by ring
      _ = 0 := hc.symm
  have hss : s 0 * s 1 = 0 := by
    refine mul_self_eq_zero.mp ?_
    calc (s 0 * s 1) * (s 0 * s 1) = (s 0 * s 0) * (s 1 * s 1) := by ring
      _ = lam 0 * lam 1 := by rw [hs 0, hs 1]
      _ = 0 := hlam
  have hdet : (trans V s).det = 0 := by
    rw [trans, Matrix.det_transpose, Matrix.det_mul, Matrix.det_diagonal,
      Fin.prod_univ_two, hss, mul_zero]
  exact ⟨by simp [aggregated_dist_returns_pair_data, pairCore, hdet], rfl⟩

/-- Witness for the amended C2: the theorem applied to the concrete singular
pair `pairX` with its eigendecomposition `V = 1`, `Λ = (1,0)`, `√Λ = (1,0)`. -/
theorem aggregated_pair_singular_covariance_raises_witness :
    (((1 : Matrix (Fin 2) (Fin 2) ℝ)ᵀ * 1 = 1) ∧
     cov pairX = 1 * Matrix.diagonal ![1, 0] * (1 : Matrix (Fin 2) (Fin 2) ℝ)ᵀ ∧
     (∀ i, (![1, 0] : Fin 2 → ℝ) i * ![1, 0] i = (![1, 0] : Fin 2 → ℝ) i) ∧
     (cov pairX).det = 0) ∧
    (aggregated_dist_returns_pair_data 1 ![1, 0] (some pairX)
        = .raises .linAlgError ∧
     aggregated_dist_returns_pair_data 1 ![1, 0]
        (none : Option (Fin 3 → Fin 2 → ℝ)) = .ok none) := by
  have h1 : (1 : Matrix (Fin 2) (Fin 2) ℝ)ᵀ * 1 = 1 := by
    rw [Matrix.transpose_one, Matrix.mul_one]
  have h3 : ∀ i, (![1, 0] : Fin 2 → ℝ) i * ![1, 0] i = (![1, 0] : Fin 2 → ℝ) i :=
    fun i => by fin_cases i <;> norm_num
  exact ⟨⟨h1, pairX_cov, h3, pairX_cov_det⟩,
    aggregated_pair_singular_covariance_raises pairX 1 ![1, 0] ![1, 0]
      h1 pairX_cov h3 pairX_cov_det⟩

/-! ## The rolling-window model (`local_normalization_analysis.py`)

A pandas Series is a list of (index, cell) pairs; `none` models NaN.  The
returns dataframe these functions load has a clean (all-finite) column, and
each column is processed independently, so the rolling operations are
modelled on a single column. -/

/-- A pandas series cell: `none` is NaN (or a non-finite value). -/
abbrev Cell := Option ℝ

/-- Mean of a list of observations. -/
noncomputable def listMean (xs : List ℝ) : ℝ := xs.sum / xs.length

/-- Sample variance (pandas default ddof = 1, denominator `length - 1`). -/
noncomputable def listSampleVar (xs : List ℝ) : ℝ :=
  ((xs.map fun x => (x - listMean xs) ^ 2).sum) / ((xs.length : ℝ) - 1)

/-- Rolling-mean aggregate of one window. -/
noncomputable def meanCell (xs : List ℝ) : Cell :=
  if xs.length = 0 then none else some (listMean xs)

/-- Rolling-std aggregate of one window: with ddof = 1 a single observation
gives variance `0/0`, i.e. NaN. -/
noncomputable def stdCell (xs : List ℝ) : Cell :=
  if xs.length ≤ 1 then none else some (Real.sqrt (listSampleVar xs))

/-- The non-NaN observations in the trailing window of width `w` ending at
position `t` of a series. -/
def windowObs (s : List (ℕ × Cell)) (w t : ℕ) : List ℝ :=
  ((s.take (t + 1)).drop (t + 1 - w)).filterMap Prod.snd

/-- `series.rolling(window=w)` with an aggregate `f`: pandas computes the
aggregate at every position from the trailing window of width `w`, with the
default `min_periods = w` non-NaN observations required, else NaN. -/
noncomputable def rollingApply (f : List ℝ → Cell) (w : ℕ)
    (s : List (ℕ × Cell)) : List (ℕ × Cell) :=
  (List.range s.length).map fun t =>
    ((s.getD t (0, none)).1,
     if (windowObs s w t).length < w then none else f (windowObs s w t))

/-- `.dropna()` on a series: keep the non-NaN entries (indices preserved). -/
def dropna (s : List (ℕ × Cell)) : List (ℕ × Cell) :=
  s.filter fun p => p.2.isSome

/-- `.iloc[k:]` on a series: drop the first `k` entries. -/
def ilocFrom (k : ℕ) (s : List (ℕ × Cell)) : List (ℕ × Cell) :=
  s.drop k

/-- Lift a binary scalar operation to NaN-propagating cells. -/
def cellOp (op : ℝ → ℝ → Cell) : Cell → Cell → Cell
  | some x, some y => op x y
  | _, _ => none

/-- Subtraction of cells. -/
def subCell (x y : ℝ) : Cell := some (x - y)

/-- Division of cells: IEEE division by zero does not produce a finite
value (`0/0` is NaN, `x/0` is `±inf`), modelled as `none`. -/
noncomputable def divCell (x y : ℝ) : Cell :=
  if y = 0 then none else some (x / y)

/-- Binary dataframe arithmetic aligns the two operands on their indices.
With identical indices (pandas' fast path, and the only case the pipeline
exercises for `w ≥ 2`) the operation is positional; otherwise the result is
indexed by the union of the indices, NaN where either operand is missing
(pandas sorts the union; the order is immaterial here as no theorem below
exercises that branch). -/
noncomputable def alignWith (op : ℝ → ℝ → Cell)
    (a b : List (ℕ × Cell)) : List (ℕ × Cell) :=
  if a.map Prod.fst = b.map Prod.fst then
    List.zipWith (fun p q => (p.1, cellOp op p.2 q.2)) a b
  else
    ((a.map Prod.fst ++ b.map Prod.fst).dedup).map fun i =>
      (i, match a.lookup i, b.lookup i with
          | some c, some d => cellOp op c d
          | _, _ => none)

/-- `ln_volatility_data` computation:
`data.rolling(window=int(window)).std().dropna()`. -/
noncomputable def ln_volatility_series (w : ℕ) (s : List (ℕ × Cell)) :
    List (ℕ × Cell) :=
  dropna (rollingApply stdCell w s)

/-- `ln_normalized_returns_data` computation:
```python
data_win = data.iloc[int(window) - 1:]
data_mean = data.rolling(window=int(window)).mean().dropna()
data_std = data.rolling(window=int(window)).std().dropna()
normalized_df = (data_win - data_mean) / data_std
``` -/
noncomputable def ln_normalized_series (w : ℕ) (s : List (ℕ × Cell)) :
    List (ℕ × Cell) :=
  alignWith divCell
    (alignWith subCell (ilocFrom (w - 1) s)
      (dropna (rollingApply meanCell w s)))
    (dropna (rollingApply stdCell w s))

/-- A clean (NaN-free) input column with positional indices `0, 1, ...`,
as produced by loading the returns dataframe. -/
def ofDataAux : ℕ → List ℝ → List (ℕ × Cell)
  | _, [] => []
  | i, x :: xs => (i, some x) :: ofDataAux (i + 1) xs

def ofData (xs : List ℝ) : List (ℕ × Cell) := ofDataAux 0 xs

lemma ofDataAux_length (i : ℕ) (xs : List ℝ) :
    (ofDataAux i xs).length = xs.length := by
  induction xs generalizing i with
  | nil => rfl
  | cons x xs ih => simp [ofDataAux, ih]

lemma ofDataAux_take (i k : ℕ) (xs : List ℝ) :
    (ofDataAux i xs).take k = ofDataAux i (xs.take k) := by
  induction xs generalizing i k with
  | nil => simp [ofDataAux]
  | cons x xs ih =>
    cases k with
    | zero => simp [ofDataAux]
    | succ k => simp [ofDataAux, ih]

lemma ofDataAux_drop (i k : ℕ) (xs : List ℝ) :
    (ofDataAux i xs).drop k = ofDataAux (i + k) (xs.drop k) := by
  induction xs generalizing i k with
  | nil => simp [ofDataAux]
  | cons x xs ih =>
    cases k with
    | zero => simp [ofDataAux]
    | succ k =>
      show (ofDataAux (i + 1) xs).drop k = _
      rw [ih]
      congr 1
      omega

lemma ofDataAux_filterMap_snd (i : ℕ) (xs : List ℝ) :
    (ofDataAux i xs).filterMap Prod.snd = xs := by
  induction xs generalizing i with
  | nil => rfl
  | cons x xs ih => simp [ofDataAux, List.filterMap_cons, ih]

lemma ofDataAux_eq_map (i : ℕ) (ys : List ℝ) :
    ofDataAux i ys
      = (List.range ys.length).map fun k => (i + k, some (ys.getD k 0)) := by
  induction ys generalizing i with
  | nil => rfl
  | cons y ys ih =>
    show (i, some y) :: ofDataAux (i + 1) ys = _
    rw [ih, List.length_cons, List.range_succ_eq_map, List.map_cons,
      List.map_map]
    refine congrArg₂ List.cons (by simp) ?_
    refine List.map_congr_left fun k _ => ?_
    simp only [Function.comp_apply, List.getD_cons_succ]
    refine congrArg₂ Prod.mk (by omega) rfl

lemma windowObs_ofData (xs : List ℝ) (w t : ℕ) :
    windowObs (ofData xs) w t = (xs.take (t + 1)).drop (t + 1 - w) := by
  rw [windowObs, ofData, ofDataAux_take, ofDataAux_drop,
    ofDataAux_filterMap_snd]

lemma ofData_getD_fst (xs : List ℝ) (t : ℕ) (ht : t < xs.length) :
    ((ofData xs).getD t (0, none)).1 = t := by
  rw [ofData, ofDataAux_eq_map]
  rw [List.getD_eq_getElem _ _ (by simpa using ht)]
  simp

lemma rollingApply_ofData (f : List ℝ → Cell) (w : ℕ) (xs : List ℝ) :
    rollingApply f w (ofData xs)
      = (List.range xs.length).map fun t =>
          (t, if t + 1 < w then none
              else f ((xs.take (t + 1)).drop (t + 1 - w))) := by
  rw [rollingApply, ofData]
  rw [show (ofDataAux 0 xs).length = xs.length from ofDataAux_length 0 xs]
  refine List.map_congr_left fun t ht => ?_
  rw [List.mem_range] at ht
  refine congrArg₂ Prod.mk (ofData_getD_fst xs t ht) ?_
  rw [show windowObs (ofDataAux 0 xs) w t = (xs.take (t + 1)).drop (t + 1 - w)
    from windowObs_ofData xs w t]
  have hlen : ((xs.take (t + 1)).drop (t + 1 - w)).length = min w (t + 1) := by
    simp only [List.length_drop, List.length_take]
    omega
  rw [hlen]
  by_cases h : t + 1 < w
  · rw [if_pos (by omega), if_pos h]
  · rw [if_neg (by omega), if_neg h]

lemma dropna_rollingApply (f : List ℝ → Cell) (w : ℕ) (hw : 2 ≤ w)
    (xs : List ℝ) (hf : ∀ l : List ℝ, l.length = w → (f l).isSome) :
    dropna (rollingApply f w (ofData xs))
      = (List.range (xs.length - (w - 1))).map fun k =>
          ((w - 1) + k, f ((xs.drop k).take w)) := by
  rw [rollingApply_ofData f w xs, dropna, List.filter_map]
  have hpred : (List.range xs.length).filter
      ((fun p : ℕ × Cell => p.2.isSome) ∘ fun t =>
        (t, if t + 1 < w then none else f ((xs.take (t + 1)).drop (t + 1 - w))))
      = (List.range xs.length).filter fun t => decide (w ≤ t + 1) := by
    refine List.filter_congr fun t ht => ?_
    rw [List.mem_range] at ht
    by_cases h : t + 1 < w
    · simp only [Function.comp_apply, if_pos h]
      simp only [Option.isSome_none]
      have : ¬ (w ≤ t + 1) := by omega
      simp [this]
    · simp only [Function.comp_apply, if_neg h]
      have hwin : ((xs.take (t + 1)).drop (t + 1 - w)).length = w := by
        simp only [List.length_drop, List.length_take]
        omega
      rw [hf _ hwin]
      have : w ≤ t + 1 := by omega
      simp [this]
  rw [hpred]
  have hfilter : (List.range xs.length).filter (fun t => decide (w ≤ t + 1))
      = (List.range (xs.length - (w - 1))).map fun k => (w - 1) + k := by
    rcases le_or_lt xs.length (w - 1) with hle | hlt
    · rw [show xs.length - (w - 1) = 0 from by omega]
      rw [List.filter_eq_nil_iff.mpr ?_]
      · rfl
      · intro t htm
        rw [List.mem_range] at htm
        simp only [decide_eq_true_eq]
        omega
    · have hsplit : xs.length = (w - 1) + (xs.length - (w - 1)) := by omega
      rw [hsplit, List.range_add, List.filter_append]
      rw [List.filter_eq_nil_iff.mpr ?_]
      · rw [List.filter_map, List.filter_eq_self.mpr ?_]
        · rw [List.nil_append]
          congr 2
          omega
        · intro k _
          simp only [Function.comp_apply, decide_eq_true_eq]
          omega
      · intro t htm
        rw [List.mem_range] at htm
        simp only [decide_eq_true_eq]
        omega
  rw [hfilter, List.map_map]
  refine List.map_congr_left fun k hk => ?_
  rw [List.mem_range] at hk
  simp only [Function.comp_apply]
  rw [if_neg (by omega)]
  refine congrArg₂ Prod.mk rfl ?_
  congr 1
  rw [List.drop_take]
  congr 1
  · omega
  · congr 1
    omega

lemma ilocFrom_ofData (w : ℕ) (xs : List ℝ) :
    ilocFrom (w - 1) (ofData xs)
      = (List.range (xs.length - (w - 1))).map fun k =>
          ((w - 1) + k, some (xs.getD ((w - 1) + k) 0)) := by
  rw [ilocFrom, ofData, ofDataAux_drop, ofDataAux_eq_map]
  simp only [Nat.zero_add, List.length_drop]
  refine List.map_congr_left fun k _ => ?_
  refine congrArg₂ Prod.mk rfl ?_
  rw [List.getD_eq_getElem?_getD, List.getD_eq_getElem?_getD,
    List.getElem?_drop]

lemma zipWith_map_same {α β γ δ : Type} (h : β → γ → δ) (f : α → β)
    (g : α → γ) : ∀ l : List α,
    List.zipWith h (l.map f) (l.map g) = l.map fun x => h (f x) (g x)
  | [] => rfl
  | x :: l => by
    simp only [List.map_cons, List.zipWith_cons_cons]
    rw [zipWith_map_same h f g l]

lemma alignWith_mapRange (op : ℝ → ℝ → Cell) (c m : ℕ) (a b : ℕ → Cell) :
    alignWith op ((List.range m).map fun k => (c + k, a k))
        ((List.range m).map fun k => (c + k, b k))
      = (List.range m).map fun k => (c + k, cellOp op (a k) (b k)) := by
  rw [alignWith, if_pos (by simp [List.map_map, Function.comp])]
  rw [zipWith_map_same]

/-- Counterexample for C4 as stated (at `w = 1`): with ddof = 1 a rolling
window of one observation has variance `0/0` (NaN), so
`rolling(window=1).std().dropna()` drops EVERY row: on the two-row input
`[1, 2]`, `ln_volatility_data`'s dataframe is empty rather than keeping the
claimed `2 - (1-1) = 2` rows. -/
theorem ln_volatility_window_one_counterexample :
    ln_volatility_series 1 (ofData [1, 2]) = [] ∧
    (ofData [1, 2]).length - (1 - 1) = 2 := by
  constructor
  · rfl
  · rfl

/-- C4 (amended): for every returns column and every rolling window length
`w ≥ 2` (for `w = 1` the ddof-1 rolling std is NaN everywhere and `dropna`
empties the output — see the counterexample), `ln_volatility_data`
(`rolling(w).std().dropna()`) and `ln_normalized_returns_data`
(`(iloc[w-1:] - rolling(w).mean().dropna()) / rolling(w).std().dropna()`)
discard exactly the first `w - 1` rows: the outputs keep indices
`w-1, w, ...` (`xs.length - (w-1)` rows), and the entry at index `(w-1)+k`
is computed from the trailing window of `w` rows ending there —
`(xs.drop k).take w` — as its sample standard deviation (volatility), resp.
the row value minus the window mean, divided by the window standard
deviation (normalization). -/
theorem ln_rolling_window_discards (w : ℕ) (xs : List ℝ) (hw : 2 ≤ w) :
    ln_volatility_series w (ofData xs)
      = (List.range (xs.length - (w - 1))).map (fun k =>
          ((w - 1) + k,
            some (Real.sqrt (listSampleVar ((xs.drop k).take w))))) ∧
    ln_normalized_series w (ofData xs)
      = (List.range (xs.length - (w - 1))).map (fun k =>
          ((w - 1) + k,
            divCell (xs.getD ((w - 1) + k) 0 - listMean ((xs.drop k).take w))
              (Real.sqrt (listSampleVar ((xs.drop k).take w))))) := by
  have hstd : ∀ l : List ℝ, l.length = w → (stdCell l).isSome := by
    intro l hl
    unfold stdCell
    rw [hl, if_neg (by omega)]
    rfl
  have hmean : ∀ l : List ℝ, l.length = w → (meanCell l).isSome := by
    intro l hl
    unfold meanCell
    rw [hl, if_neg (by omega)]
    rfl
  have hwin : ∀ k, k < xs.length - (w - 1) →
      ((xs.drop k).take w).length = w := by
    intro k hk
    simp only [List.length_take, List.length_drop]
    omega
  constructor
  · rw [ln_volatility_series, dropna_rollingApply stdCell w hw xs hstd]
    refine List.map_congr_left fun k hk => ?_
    rw [List.mem_range] at hk
    refine congrArg₂ Prod.mk rfl ?_
    unfold stdCell
    rw [hwin k hk, if_neg (by omega)]
  · rw [ln_normalized_series, ilocFrom_ofData,
      dropna_rollingApply meanCell w hw xs hmean,
      dropna_rollingApply stdCell w hw xs hstd]
    rw [alignWith_mapRange subCell (w - 1) (xs.length - (w - 1))
      (fun k => some (xs.getD ((w - 1) + k) 0))
      (fun k => meanCell ((xs.drop k).take w))]
    rw [alignWith_mapRange divCell (w - 1) (xs.length - (w - 1))
      (fun k => cellOp subCell (some (xs.getD ((w - 1) + k) 0))
        (meanCell ((xs.drop k).take w)))
      (fun k => stdCell ((xs.drop k).take w))]
    refine List.map_congr_left fun k hk => ?_
    rw [List.mem_range] at hk
    refine congrArg₂ Prod.mk rfl ?_
    rw [show meanCell ((xs.drop k).take w)
        = some (listMean ((xs.drop k).take w)) from by
      unfold meanCell
      rw [hwin k hk, if_neg (by omega)]]
    rw [show stdCell ((xs.drop k).take w)
        = some (Real.sqrt (listSampleVar ((xs.drop k).take w))) from by
      unfold stdCell
      rw [hwin k hk, if_neg (by omega)]]
    rfl

/-- Witness for the amended C4: the theorem applied to window `w = 2` and
the concrete column `[1, 2, 3]`. -/
theorem ln_rolling_window_discards_witness :
    2 ≤ 2 ∧
    (ln_volatility_series 2 (ofData [1, 2, 3])
       = (List.range (([1, 2, 3] : List ℝ).length - (2 - 1))).map (fun k =>
           ((2 - 1) + k,
             some (Real.sqrt
               (listSampleVar ((([1, 2, 3] : List ℝ).drop k).take 2))))) ∧
     ln_normalized_series 2 (ofData [1, 2, 3])
       = (List.range (([1, 2, 3] : List ℝ).length - (2 - 1))).map (fun k =>
           ((2 - 1) + k,
             divCell (([1, 2, 3] : List ℝ).getD ((2 - 1) + k) 0
                 - listMean ((([1, 2, 3] : List ℝ).drop k).take 2))
               (Real.sqrt
                 (listSampleVar ((([1, 2, 3] : List ℝ).drop k).take 2)))))) :=
  ⟨le_refl 2, ln_rolling_window_discards 2 [1, 2, 3] (le_refl 2)⟩

/-! ## `returns_data`: `data.pct_change().dropna()` on a row dataframe

`pct_change` computes `data / data.shift(1) - 1`: the first row is all NaN,
and row `t ≥ 1` is `cur/prev - 1` elementwise.  Division by a zero price is
not finite in IEEE arithmetic (`0/0` is NaN, `c/0` is `±inf`), modelled as
`none`; the theorems below exercise this cell only where the previous price
is zero. -/

/-- One cell of `pct_change`: `cur/prev - 1`. -/
noncomputable def pctCell (p c : ℝ) : Cell :=
  if p = 0 then none else some (c / p - 1)

/-- The rows of `pct_change` from the second row on: each row is computed
elementwise from the previous and current price rows. -/
noncomputable def pctAux : List ℝ → List (List ℝ) → List (List Cell)
  | _, [] => []
  | prev, cur :: rest => List.zipWith pctCell prev cur :: pctAux cur rest

/-- `data.pct_change()`: first row all NaN, then consecutive changes. -/
noncomputable def pct_change : List (List ℝ) → List (List Cell)
  | [] => []
  | r :: rs => (r.map fun _ => none) :: pctAux r rs

/-- `.dropna()` on a dataframe: drop every row containing a NaN. -/
def dropnaRows (df : List (List Cell)) : List (List Cell) :=
  df.filter fun r => r.all fun c => c.isSome

/-- `returns_data` computation: `data.pct_change().dropna()`. -/
noncomputable def returns_data_df (df : List (List ℝ)) : List (List Cell) :=
  dropnaRows (pct_change df)

lemma zipWith_pctCell (prev cur : List ℝ) (h : ∀ x ∈ prev, x ≠ 0) :
    List.zipWith pctCell prev cur
      = List.zipWith (fun p c => some ((c - p) / p)) prev cur := by
  induction prev generalizing cur with
  | nil => simp
  | cons p ps ih =>
    cases cur with
    | nil => simp
    | cons c cs =>
      simp only [List.zipWith_cons_cons]
      have hp : p ≠ 0 := h p (by simp)
      rw [show pctCell p c = some ((c - p) / p) from by
        unfold pctCell
        rw [if_neg hp, sub_div, div_self hp]]
      rw [ih cs fun x hx => h x (by simp [hx])]

lemma zipWith_some_all (f : ℝ → ℝ → ℝ) : ∀ (a b : List ℝ),
    ((List.zipWith (fun p c => some (f p c)) a b).all fun c => c.isSome)
      = true
  | [], _ => rfl
  | _ :: _, [] => rfl
  | p :: ps, c :: cs => by
    simp only [List.zipWith_cons_cons, List.all_cons, Option.isSome_some,
      Bool.true_and]
    exact zipWith_some_all f ps cs

lemma pctAux_eq (prev : List ℝ) (rs : List (List ℝ))
    (hprev : ∀ x ∈ prev, x ≠ 0) (hrs : ∀ r ∈ rs, ∀ x ∈ r, x ≠ 0) :
    pctAux prev rs
      = ((prev :: rs).zip rs).map fun pc =>
          List.zipWith (fun p c => some ((c - p) / p)) pc.1 pc.2 := by
  induction rs generalizing prev with
  | nil => rfl
  | cons cur rest ih =>
    show List.zipWith pctCell prev cur :: pctAux cur rest = _
    rw [zipWith_pctCell prev cur hprev,
      ih cur (hrs cur (by simp)) fun r hr => hrs r (by simp [hr])]
    rfl

/-- Counterexample for C6 as stated: two price matrices with at least two
rows and no missing entries for which the returns matrix does not have
`rows - 1` rows.  With a zero price above a zero price, `pct_change`
produces `0/0` (NaN) and `dropna` drops that row too: `[[0],[0]]` yields no
rows instead of one.  With zero columns, no NaN can occur and `dropna` keeps
all rows: `[[],[]]` yields two rows instead of one. -/
theorem returns_data_shape_counterexample :
    (returns_data_df [[0], [0]]).length = 0 ∧
    (returns_data_df ([[], []] : List (List ℝ))).length = 2 ∧
    ([[0], [0]] : List (List ℝ)).length - 1 = 1 := by
  refine ⟨?_, by rfl, by rfl⟩
  show (dropnaRows (pct_change [[0], [0]])).length = 0
  rw [show pct_change [[(0 : ℝ)], [0]]
      = [[none], List.zipWith pctCell [0] [0]] from rfl]
  rw [show List.zipWith pctCell [(0 : ℝ)] [0] = [pctCell 0 0] from rfl]
  rw [show pctCell 0 0 = none from by unfold pctCell; rw [if_pos rfl]]
  rfl

/-- C6 (amended): for every price matrix with at least two rows, at least
one column, no missing entries, and all prices nonzero (the counterexample
shows zero prices and zero-column frames break the shape), `returns_data`
(`data.pct_change().dropna()`) computes the return at row `t`, column `j`
as `cur/prev - 1 = (cur - prev)/prev`, and the result pairs each row with
its predecessor: one fewer row, identical columns. -/
theorem returns_data_shape_values (df : List (List ℝ)) (m : ℕ)
    (hnrows : 2 ≤ df.length) (hm : 1 ≤ m)
    (hwidth : ∀ r ∈ df, r.length = m)
    (hnonzero : ∀ r ∈ df, ∀ x ∈ r, x ≠ 0) :
    returns_data_df df
      = (df.zip df.tail).map (fun pc =>
          List.zipWith (fun p c => some ((c - p) / p)) pc.1 pc.2) ∧
    (returns_data_df df).length = df.length - 1 ∧
    (∀ r ∈ returns_data_df df, r.length = m) := by
  match df, hnrows with
  | r :: rs, _ =>
  have hmain : returns_data_df (r :: rs)
      = ((r :: rs).zip rs).map fun pc =>
          List.zipWith (fun p c => some ((c - p) / p)) pc.1 pc.2 := by
    show dropnaRows ((r.map fun _ => none) :: pctAux r rs) = _
    have hfirst : ((r.map fun _ => (none : Cell)).all fun c => c.isSome)
        = false := by
      match r, hwidth r (by simp) with
      | x :: _, _ => simp
      | [], habs => simp at habs; omega
    rw [dropnaRows, List.filter_cons, hfirst]
    simp only [Bool.false_eq_true, if_false]
    rw [pctAux_eq r rs (hnonzero r (by simp))
      (fun q hq => hnonzero q (by simp [hq]))]
    refine List.filter_eq_self.mpr fun row hrow => ?_
    obtain ⟨pc, _, hpc⟩ := List.mem_map.mp hrow
    rw [← hpc]
    exact zipWith_some_all _ pc.1 pc.2
  refine ⟨hmain, ?_, ?_⟩
  · rw [hmain]
    simp only [List.length_map, List.length_zip, List.length_cons]
    omega
  · intro row hrow
    rw [hmain] at hrow
    obtain ⟨pc, hpcmem, hpc⟩ := List.mem_map.mp hrow
    have hab := List.of_mem_zip hpcmem
    rw [← hpc, List.length_zipWith]
    rw [hwidth pc.1 hab.1, hwidth pc.2 (by simp [List.mem_cons, hab.2])]
    omega

/-- Witness for the amended C6: the theorem applied to the 3×1 price matrix
`[[1], [2], [4]]`. -/
theorem returns_data_shape_values_witness :
    (2 ≤ ([[1], [2], [4]] : List (List ℝ)).length ∧ 1 ≤ 1 ∧
     (∀ r ∈ ([[1], [2], [4]] : List (List ℝ)), r.length = 1) ∧
     (∀ r ∈ ([[1], [2], [4]] : List (List ℝ)), ∀ x ∈ r, x ≠ 0)) ∧
    (returns_data_df [[1], [2], [4]]
       = (([[1], [2], [4]] : List (List ℝ)).zip
           ([[1], [2], [4]] : List (List ℝ)).tail).map (fun pc =>
             List.zipWith (fun p c => some ((c - p) / p)) pc.1 pc.2) ∧
     (returns_data_df [[1], [2], [4]]).length
       = ([[1], [2], [4]] : List (List ℝ)).length - 1 ∧
     (∀ r ∈ returns_data_df [[1], [2], [4]], r.length = 1)) := by
  have hw : ∀ r ∈ ([[1], [2], [4]] : List (List ℝ)), r.length = 1 := by
    intro r hr
    simp only [List.mem_cons, List.not_mem_nil, or_false] at hr
    rcases hr with h | h | h <;> rw [h] <;> rfl
  have hnz : ∀ r ∈ ([[1], [2], [4]] : List (List ℝ)), ∀ x ∈ r, x ≠ 0 := by
    intro r hr x hx
    simp only [List.mem_cons, List.not_mem_nil, or_false] at hr
    rcases hr with h | h | h <;> rw [h] at hx <;> simp at hx <;>
      rw [hx] <;> norm_num
  exact ⟨⟨by norm_num, le_refl 1, hw, hnz⟩,
    returns_data_shape_values [[1], [2], [4]] 1 (by norm_num) (le_refl 1)
      hw hnz⟩

/-! ## The eight analysis operations and their missing-file behaviour (C3)

Each operation's `try`/`except FileNotFoundError` block is meant to print a
message and return normally when the input pickle file is missing (`none`
input; `.ok none` = returned normally, nothing written).  In the staged
repository, however, seven of the eight operations never reach that
handler:

* `correlation_matrix_tools.py` as staged defines only `hist_`-prefixed
  helpers (see `correlation_matrix_tools_attrs`), so the
  `correlation_matrix_tools.function_header_print_data(...)` call that the
  four `correlation_matrix` operations make *before* their `try` raises an
  uncaught `AttributeError` (and `save_data`, called inside the `try`, is
  equally absent);
* `local_normalization_analysis.py` contains the bare statements
  `Saving data` (lines 211 and 293), a `SyntaxError`: the module fails to
  import, so its functions can never run at all.

Only `aggregated_dist_returns_pair_data`, which calls no tools helper,
prints and returns normally on a missing file.  (`correlation_matrix_data`
and `ln_correlation_matrix_data` also catch `TypeError`, which cannot arise
in this typed model.) -/

/-- The function names defined by the staged `correlation_matrix_tools.py`:
only `hist_`-prefixed helpers plus `gaussian_distribution` and `main`; in
particular neither `function_header_print_data` nor `save_data` exists. -/
def correlation_matrix_tools_attrs : List String :=
  ["hist_save_data", "hist_save_plot", "hist_function_header_print_data",
   "hist_function_header_print_plot", "hist_start_folders",
   "hist_initial_message", "hist_weeks", "gaussian_distribution", "main"]

/-- Python attribute lookup `module.name`: raises `AttributeError` when the
module defines no such name. -/
def getattrExn (attrs : List String) (name : String) : Option PyExn :=
  if name ∈ attrs then none else some .attributeError

/-- Importing `local_normalization_analysis.py` raises `SyntaxError`: the
bare statements `Saving data` at lines 211 and 293 do not parse. -/
def local_normalization_import : Option PyExn := some .syntaxError

/-- `returns_data`: header print (before the `try`; raises `AttributeError`
in the staged repository), then `data.pct_change().dropna()`, saved via
`save_data` (also absent, inside the `try`, where `AttributeError` is not
caught either). -/
noncomputable def returns_data
    (file? : Option (List (List ℝ))) : PyOutcome (Option (List (List Cell))) :=
  match getattrExn correlation_matrix_tools_attrs "function_header_print_data" with
  | some e => .raises e
  | none =>
    match file? with
    | none => .ok none
    | some df =>
      match getattrExn correlation_matrix_tools_attrs "save_data" with
      | some e => .raises e
      | none => .ok (some (returns_data_df df))

/-- `normalized_returns_data`: header print before the `try`, then
`(data - data.mean()) / data.std()`, saved via `save_data`. -/
noncomputable def normalized_returns_data {n m : ℕ}
    (file? : Option (Fin n → Fin m → ℝ)) :
    PyOutcome (Option (Fin n → Fin m → ℝ)) :=
  match getattrExn correlation_matrix_tools_attrs "function_header_print_data" with
  | some e => .raises e
  | none =>
    match file? with
    | none => .ok none
    | some X =>
      match getattrExn correlation_matrix_tools_attrs "save_data" with
      | some e => .raises e
      | none => .ok (some (normalizedMatrix X))

/-- `correlation_matrix_data`: header print before the `try`, then
`data.corr()`, saved via `save_data`. -/
noncomputable def correlation_matrix_data {n m : ℕ}
    (file? : Option (Fin n → Fin m → ℝ)) :
    PyOutcome (Option (Matrix (Fin m) (Fin m) ℝ)) :=
  match getattrExn correlation_matrix_tools_attrs "function_header_print_data" with
  | some e => .raises e
  | none =>
    match file? with
    | none => .ok none
    | some X =>
      match getattrExn correlation_matrix_tools_attrs "save_data" with
      | some e => .raises e
      | none => .ok (some (corr X))

/-- The two selected columns `data[[cols[0], cols[1]]]` of a dataframe. -/
def twoCol {n m : ℕ} (X : Fin n → Fin m → ℝ) (i j : Fin m) :
    Fin n → Fin 2 → ℝ :=
  fun t => ![X t i, X t j]

/-- `itertools.combinations(stocks_name, 2)`: the ordered pairs `(i, j)`
with `i < j` of column indices. -/
def columnPairs (m : ℕ) : List (Fin m × Fin m) :=
  (List.finRange m).flatMap fun i =>
    ((List.finRange m).filter fun j => i < j).map fun j => (i, j)

/-- `pool.starmap` over the per-pair computations: an exception raised in
any worker propagates to the caller; otherwise all results are collected. -/
def collectOutcomes {α : Type} : List (PyOutcome α) → PyOutcome (List α)
  | [] => .ok []
  | o :: rest =>
    match o, collectOutcomes rest with
    | .raises e, _ => .raises e
    | .ok _, .raises e => .raises e
    | .ok a, .ok l => .ok (a :: l)

/-- `aggregated_dist_returns_market_data`: header print before the `try`,
then maps `aggregated_dist_returns_pair_data` over all column pairs (the
eigendecompositions LAPACK would return are parameters `eigV`, `eigS`),
concatenates the per-pair series, and saves via `save_data`. -/
noncomputable def aggregated_dist_returns_market_data {n m : ℕ}
    (eigV : Fin m → Fin m → Matrix (Fin 2) (Fin 2) ℝ)
    (eigS : Fin m → Fin m → Fin 2 → ℝ)
    (file? : Option (Fin n → Fin m → ℝ)) : PyOutcome (Option (List ℝ)) :=
  match getattrExn correlation_matrix_tools_attrs "function_header_print_data" with
  | some e => .raises e
  | none =>
    match file? with
    | none => .ok none
    | some X =>
      match collectOutcomes ((columnPairs m).map fun p =>
          pairCore (twoCol X p.1 p.2) (eigV p.1 p.2) (eigS p.1 p.2)) with
      | .raises e => .raises e
      | .ok ls =>
        match getattrExn correlation_matrix_tools_attrs "save_data" with
        | some e => .raises e
        | none => .ok (some ls.flatten)

/-- `ln_volatility_data`: `data.rolling(window).std().dropna()` — but the
defining module fails to import (`SyntaxError`), so any invocation raises
before the function body can run. -/
noncomputable def ln_volatility_data (w : ℕ)
    (file? : Option (List (ℕ × Cell))) :
    PyOutcome (Option (List (ℕ × Cell))) :=
  match local_normalization_import with
  | some e => .raises e
  | none =>
    match file? with
    | none => .ok none
    | some s => .ok (some (ln_volatility_series w s))

/-- `ln_normalized_returns_data`: local normalization by the rolling
window — unreachable behind the module's `SyntaxError`. -/
noncomputable def ln_normalized_returns_data (w : ℕ)
    (file? : Option (List (ℕ × Cell))) :
    PyOutcome (Option (List (ℕ × Cell))) :=
  match local_normalization_import with
  | some e => .raises e
  | none =>
    match file? with
    | none => .ok none
    | some s => .ok (some (ln_normalized_series w s))

/-- `ln_correlation_matrix_data`: `data.corr()` on the locally normalized
returns — unreachable behind the module's `SyntaxError`. -/
noncomputable def ln_correlation_matrix_data {n m : ℕ}
    (file? : Option (Fin n → Fin m → ℝ)) :
    PyOutcome (Option (Matrix (Fin m) (Fin m) ℝ)) :=
  match local_normalization_import with
  | some e => .raises e
  | none =>
    match file? with
    | none => .ok none
    | some X => .ok (some (corr X))

/-- C3: the claimed failure policy (missing input pickle → print a message,
return normally, write nothing) holds in the staged repository only for
`aggregated_dist_returns_pair_data`.  The four other `correlation_matrix`
operations raise `AttributeError` at the
`correlation_matrix_tools.function_header_print_data` call placed before
their `try` — the staged tools module defines only `hist_`-prefixed
helpers — and the three `ln_` operations raise `SyntaxError` when their
module is imported (bare `Saving data`, `local_normalization_analysis.py`
lines 211 and 293), so none of the seven can print-and-return-normally. -/
theorem missing_input_behaviour_staged (n m w : ℕ)
    (V : Matrix (Fin 2) (Fin 2) ℝ) (s : Fin 2 → ℝ)
    (eigV : Fin m → Fin m → Matrix (Fin 2) (Fin 2) ℝ)
    (eigS : Fin m → Fin m → Fin 2 → ℝ) :
    aggregated_dist_returns_pair_data V s
      (none : Option (Fin n → Fin 2 → ℝ)) = .ok none ∧
    returns_data none = .raises .attributeError ∧
    normalized_returns_data (none : Option (Fin n → Fin m → ℝ))
      = .raises .attributeError ∧
    correlation_matrix_data (none : Option (Fin n → Fin m → ℝ))
      = .raises .attributeError ∧
    aggregated_dist_returns_market_data eigV eigS
      (none : Option (Fin n → Fin m → ℝ)) = .raises .attributeError ∧
    ln_volatility_data w none = .raises .syntaxError ∧
    ln_normalized_returns_data w none = .raises .syntaxError ∧
    ln_correlation_matrix_data (none : Option (Fin n → Fin m → ℝ))
      = .raises .syntaxError :=
  ⟨rfl, rfl, rfl, rfl, rfl, rfl, rfl, rfl⟩

/-! ## `hist_weeks` (`correlation_matrix_tools.py`) -/

/-- `hist_weeks`: the tuple of zero-padded labels for `val in range(1, 54)`. -/
def hist_weeks : List String :=
  (List.range' 1 53).map fun v =>
    if v < 10 then "0" ++ toString v else toString v

/-- Counterexample for C7 as stated: the week tuple generated by
`hist_weeks` has 53 elements (`range(1, 54)`, labels '01'–'53'), not 52. -/
theorem hist_weeks_not_52_counterexample : hist_weeks.length ≠ 52 := by
  decide

/-- C7 (amended): `hist_weeks` generates 53 distinct week labels, from
"01" to "53" (its docstring: "the numbers from 1 to 53 representing the
weeks in a year"); no month or quarter bucketing exists in this module. -/
theorem hist_weeks_53_labels :
    hist_weeks.length = 53 ∧ hist_weeks.Nodup ∧
    hist_weeks.headD "" = "01" ∧ hist_weeks.getLastD "" = "53" := by
  refine ⟨by decide, by decide, by decide, by decide⟩

/-! ## `portfolio_download_data` (`download_data_main.py`)

The observable behaviour of a run is what it prints (the header from
`function_header_print_data`, which mentions the ticker argument) and the
download request passed to `yf.download` — whose `tickers` field is the
hardcoded string `'AIG'`, not the ticker argument. -/

structure DownloadRequest where
  tickers : String
  startYear : ℕ
  startMonth : ℕ
  startDay : ℕ
  interval : String
deriving DecidableEq

structure RunBehavior where
  printed : List String
  request : DownloadRequest
deriving DecidableEq

/-- `function_header_print_data` of `download_data_tools.py`: the printed
header lines. -/
def function_header_print_data
    (function_name tickers year time_step : String) : List String :=
  ["Portfolio Optimization", function_name,
   "Downloading data for the tickers " ++ tickers ++ " from the year "
     ++ year ++ " to the present in time steps of " ++ time_step, ""]

/-- `portfolio_download_data`: prints the header for its ticker argument,
then requests `yf.download(tickers='AIG', start=datetime(year, 1, 1),
interval=time_step)`. -/
def portfolio_download_data (ticker : String) (year : ℕ)
    (time_step : String) : RunBehavior :=
  ⟨function_header_print_data "portfolio_download_data" ticker
      (toString year) time_step,
   ⟨"AIG", year, 1, 1, time_step⟩⟩

/-- Counterexample for C8 as stated: the ticker argument does influence the
function's behaviour — the printed header mentions it — so two runs with
different tickers are not identical. -/
theorem ticker_influences_printed_header_counterexample :
    portfolio_download_data "AAPL" 1980 "1d"
      ≠ portfolio_download_data "MSFT" 1980 "1d" := by
  decide

/-- C8 (amended): the ticker argument of `portfolio_download_data` has no
influence on the download request it issues — the ticker string 'AIG' is
hardcoded in the request, so any two ticker arguments (all other arguments
equal) produce the identical request; only the printed header mentions the
ticker argument. -/
theorem ticker_no_influence_on_request (t₁ t₂ : String) (year : ℕ)
    (time_step : String) :
    (portfolio_download_data t₁ year time_step).request
      = (portfolio_download_data t₂ year time_step).request ∧
    (portfolio_download_data t₁ year time_step).request.tickers = "AIG" :=
  ⟨rfl, rfl⟩

/-! ## `get_stocks` (`download_data_tools.py`) -/

/-- `get_stocks`: the S&P 500 table is a list of rows
`(Symbol, GICS Sector)`.  Python evaluates `sectors[0] == 'all'`, which
raises `IndexError` on an empty list (`none`); otherwise it either takes
every symbol, or loops `for sector in sectors`, extending the accumulator
with the symbols of the rows whose sector matches. -/
def get_stocks (table : List (String × String)) (sectors : List String) :
    Option (List String) :=
  match sectors with
  | [] => none
  | s0 :: rest =>
    if s0 = "all" then some (table.map Prod.fst)
    else some ((s0 :: rest).foldl
        (fun acc sec => acc ++ (table.filter (fun r => r.2 = sec)).map
          Prod.fst) [])

lemma foldl_append_eq_flatMap (f : String → List String) :
    ∀ (l : List String) (acc : List String),
    l.foldl (fun acc sec => acc ++ f sec) acc = acc ++ l.flatMap f
  | [], acc => by simp
  | s :: l, acc => by
    show (s :: l).foldl (fun acc sec => acc ++ f sec) acc = _
    rw [List.foldl_cons, foldl_append_eq_flatMap f l (acc ++ f s),
      List.flatMap_cons, List.append_assoc]

/-- C10: `get_stocks` special-cases the first list element: if
`sectors[0] == 'all'` it returns the symbols of every table row and ignores
the remaining entries (the result does not depend on `rest`); otherwise it
returns exactly the symbols of the rows whose 'GICS Sector' value is in the
sectors list, concatenated sector by sector in the order listed — so a
repeated sector contributes its symbols once per occurrence. -/
theorem get_stocks_spec (table : List (String × String)) (s0 : String)
    (rest : List String) :
    (s0 = "all" → get_stocks table (s0 :: rest) = some (table.map Prod.fst)) ∧
    (s0 ≠ "all" → get_stocks table (s0 :: rest)
        = some ((s0 :: rest).flatMap fun sec =>
            (table.filter fun r => r.2 = sec).map Prod.fst)) := by
  constructor
  · intro h
    simp only [get_stocks]
    rw [if_pos h]
  · intro h
    simp only [get_stocks]
    rw [if_neg h, foldl_append_eq_flatMap, List.nil_append]

/-- Witness for C10: on a concrete three-row table, `['all', 'Util']`
returns every symbol (ignoring 'Util'), and the repeated sector list
`['Util', 'Util']` contributes the matching symbol twice. -/
theorem get_stocks_spec_witness :
    get_stocks [("A", "Fin"), ("B", "Util"), ("C", "Fin")] ["all", "Util"]
      = some ["A", "B", "C"] ∧
    get_stocks [("A", "Fin"), ("B", "Util"), ("C", "Fin")] ["Util", "Util"]
      = some ["B", "B"] := by
  constructor
  · rw [(get_stocks_spec [("A", "Fin"), ("B", "Util"), ("C", "Fin")] "all"
      ["Util"]).1 rfl]
    rfl
  · rw [(get_stocks_spec [("A", "Fin"), ("B", "Util"), ("C", "Fin")] "Util"
      ["Util"]).2 (by decide)]
    rfl

end PortfolioOpt
